import Mathlib

/-!
Verification of makeepub (main.go): the source abstraction, heading detector,
chapter segmenter, asset collector and the error behaviour of the cover-page
and chapter-adding stages.

Strings are embedded as `List Char`; a document is a `List (List Char)` of its
lines (as produced by reading the input line by line, newlines stripped).
-/

/-- The character class `[ \t]` used by both regular expressions in main.go. -/
def isWsChar (c : Char) : Bool := c == ' ' || c == '\t'

/-- The character class `[hH]` of the heading regular expression. -/
def isHChar (c : Char) : Bool := c == 'h' || c == 'H'

/-- The character class `[1-6]` of the heading regular expression
(49 and 54 are the code points of the digits 1 and 6). -/
def isLevelDigit (c : Char) : Bool := 49 ≤ c.toNat && c.toNat ≤ 54

/-- The character class `[^>]` (anything but the closing angle bracket). -/
def notGt (c : Char) : Bool := !(c == '>')

/-- The character class `[^<]` (anything but the opening angle bracket). -/
def notLt (c : Char) : Bool := !(c == '<')

/-- The closing part `</[hH]([1-6])>[ \t]*$` of reHeader, combined with the
check `m[1] == m[3]` performed by checkNewChapter: `d1` is the digit captured
by the opening tag, `s` the remainder of the line after the inner text. -/
def closeTagOk (d1 : Char) (s : List Char) : Bool :=
  match s with
  | a :: b :: c2 :: d2 :: e :: rest3 =>
      a == '<' && b == '/' && isHChar c2 && isLevelDigit d2 && e == '>'
        && rest3.all isWsChar && (d1 == d2)
  | _ => false

/-- The part of reHeader after `<[hH]([1-6])[^>]*`: the scrutinee is what
remains of the line once the run of attribute characters (no `>`) has been
skipped, so a match requires its head to be the literal `>`; the inner text
`([^<]*)` is then the run of non-`<` characters, and the rest of the line
must satisfy closeTagOk. -/
def afterGt (d1 : Char) (s : List Char) : Nat × List Char :=
  match s with
  | g :: rest2 =>
    if g == '>' then
      if closeTagOk d1 (rest2.dropWhile notLt) then
        (d1.toNat - 48, rest2.takeWhile notLt)
      else (0, [])
    else (0, [])
  | [] => (0, [])

/-- The part of reHeader after `^[ \t]*`: the first three characters must be
`<`, a heading letter and a level digit, after which the attribute run is
skipped and afterGt takes over. -/
def openTag : List Char → Nat × List Char
  | c0 :: c1 :: d1 :: rest1 =>
    if c0 == '<' && isHChar c1 && isLevelDigit d1 then
      afterGt d1 (rest1.dropWhile notGt)
    else (0, [])
  | _ => (0, [])

/-- checkNewChapter (main.go lines 139-145): matches a line against
`reHeader = ^[ \t]*<[hH]([1-6])[^>]*>([^<]*)</[hH]([1-6])>[ \t]*$` and, when
the two captured level digits agree, returns the level as depth together with
the inner text as title; otherwise returns depth 0 and an empty title.
The regular expression is anchored on both sides, and each quantified piece
(`[ \t]*`, `[^>]*`, `[^<]*`) is followed in the pattern by a character the
class excludes, so the match is deterministic and is computed here by
takeWhile/dropWhile scans. -/
def checkNewChapter (l : List Char) : Nat × List Char :=
  openTag (l.dropWhile isWsChar)

/-- The body-open pattern `reBody = ^[ \t]*<(?i)body(?-i)[^>]*>$`
(main.go line 99): optional horizontal whitespace, `<body` with the four tag
letters case-insensitive, then attribute characters none of which is `>`, then
`>` as the last character of the line. -/
def isBodyLine (l : List Char) : Bool :=
  match l.dropWhile isWsChar with
  | '<' :: b :: o :: d :: y :: rest =>
      (b == 'b' || b == 'B') && (o == 'o' || o == 'O') &&
      (d == 'd' || d == 'D') && (y == 'y' || y == 'Y') &&
      (rest.dropWhile notGt == ['>'])
  | _ => false

/-- A chapter as registered with the book container by AddChapter. -/
structure Chapter where
  title : List Char
  content : List Char
  depth : Nat
deriving DecidableEq, Repr

/-- The closing footer written before every mid-stream chapter is emitted
(main.go line 178): a tab, then the two closing tags. -/
def footer : List Char := "\t</body>\n</html>".data

/-- Joining a list of lines back into a byte sequence: each line gets the
newline the reader stripped re-appended (`l + "\n"` in the Go code). -/
def joinNl (ls : List (List Char)) : List Char :=
  (ls.map (fun l => l ++ ['\n'])).flatten

/-- The Prologue phase of addChaptersToBook (main.go lines 155-166): read
lines, accumulating each (with its newline) into the header, until a line
matches reBody, which is itself included; end of input before a body line is
a read error (ReadLine returns io.EOF, which the function returns).
Returns the accumulated header (the Envelope) and the remaining lines. -/
def findBody : List (List Char) → Option (List Char × List (List Char))
  | [] => none
  | l :: ls =>
    if isBodyLine l then some (l ++ ['\n'], ls)
    else
      match findBody ls with
      | none => none
      | some (h, rest) => some (l ++ ['\n'] ++ h, rest)

/-- The Accumulating phase of addChaptersToBook (main.go lines 168-195),
parameterised by the external container's AddChapter, modelled as a predicate
`addOk title content depth` telling whether registration succeeds.
Arguments after the line list: the content buffer `buf`, the pending `title`
and `depth` (initially "" and 1).  Result: the list of chapters successfully
registered with the book, and whether addChaptersToBook returned an error.
Mid-stream (lines 176-186): a line whose marker has `0 < depth ≤ maxDepth`
first flushes a non-empty buffer (footer appended, chapter registered,
error returned on failure), then resets the buffer to the header; every line
is then appended to the buffer.  At end of input (lines 191-195) a non-empty
buffer is registered without the footer, but the error of that final
AddChapter call is assigned to `e` and then `return nil` ignores it. -/
def segLoop (addOk : List Char → List Char → Nat → Bool) (maxDepth : Nat)
    (header : List Char) :
    List (List Char) → List Char → List Char → Nat → List Chapter × Bool
  | [], buf, title, depth =>
    if 0 < buf.length then
      if addOk title buf depth then ([⟨title, buf, depth⟩], false)
      else ([], false)
    else ([], false)
  | l :: ls, buf, title, depth =>
    if 0 < (checkNewChapter l).1 ∧ (checkNewChapter l).1 ≤ maxDepth then
      if 0 < buf.length then
        if addOk title (buf ++ footer) depth then
          let r := segLoop addOk maxDepth header ls (header ++ l ++ ['\n'])
            (checkNewChapter l).2 (checkNewChapter l).1
          (⟨title, buf ++ footer, depth⟩ :: r.1, r.2)
        else ([], true)
      else
        segLoop addOk maxDepth header ls (header ++ l ++ ['\n'])
          (checkNewChapter l).2 (checkNewChapter l).1
    else segLoop addOk maxDepth header ls (buf ++ l ++ ['\n']) title depth

/-- addChaptersToBook (main.go lines 147-196) on a document given as its list
of lines: find the body-open line building the Envelope, then scan the
remaining lines, splitting into chapters at qualifying heading markers.
Result as in segLoop.  A document without a body line yields the Prologue
read error with no chapter registered. -/
def addChaptersToBook (addOk : List Char → List Char → Nat → Bool)
    (maxDepth : Nat) (doc : List (List Char)) : List Chapter × Bool :=
  match findBody doc with
  | none => ([], true)
  | some (header, rest) => segLoop addOk maxDepth header rest [] [] 1

/-- An AddChapter that always succeeds (the container accepts every depth
that the segmenter can produce when its maximum is at least the configured
split depth). -/
def alwaysOk : List Char → List Char → Nat → Bool := fun _ _ _ => true

/-- ZipSource.OpenFile (main.go lines 77-84): scan the archive's entries in
central-directory order and return the first whose lower-cased name equals
the requested path exactly (`strings.ToLower(f.Name) == path`; the requested
path itself is not lower-cased).  The archive is modelled by its entry-name
list; the result is the matched entry name (None models os.ErrNotExist). -/
def zipOpenFile (entries : List (List Char)) (path : List Char) :
    Option (List Char) :=
  match entries with
  | [] => none
  | f :: rest =>
    if f.map Char.toLower == path then some f else zipOpenFile rest path

/-- Modelled from the spec: FolderSource.OpenFile delegates to the operating
system (os.Open of the joined path, not in src), which resolves the exact,
case-sensitive relative path.  The directory is modelled as an association
list from relative path to content. -/
def folderOpenFile (files : List (List Char × List Char)) (path : List Char) :
    Option (List Char) :=
  match files with
  | [] => none
  | (name, data) :: rest =>
    if name == path then some data else folderOpenFile rest path

/-- Outcome of the cover-page stage: the data registered through
SetCoverPage (if any), and whether setCoverPage returned an error. -/
structure CoverResult where
  registered : Option (List Char)
  errReturned : Bool
deriving DecidableEq, Repr

/-- setCoverPage (main.go lines 102-114).  The input is the outcome of
opening and then reading cover.html: `none` when OpenFile fails, otherwise
`some r` with `r` the ReadAll outcome (`none` = read error, `some data` =
the bytes).  When the open fails its error is returned.  When the open
succeeds, the statement `if data, e := ioutil.ReadAll(f); e == nil { ... }`
declares a new `e` scoped to the if statement, so the final `return e`
returns the outer `e`, which is nil at that point: a read failure skips
SetCoverPage but the function still returns nil. -/
def setCoverPage (openResult : Option (Option (List Char))) : CoverResult :=
  match openResult with
  | none => ⟨none, true⟩
  | some readResult =>
    match readResult with
    | some data => ⟨some data, false⟩
    | none => ⟨none, false⟩

/-- The reserved-name test of addFilesToBook (main.go lines 118-121):
`p := strings.ToLower(path)` followed by comparison against the three
reserved names (ASCII lower-casing, which is what these names exercise). -/
def isReservedName (path : List Char) : Bool :=
  let p := path.map Char.toLower
  p == "book.ini".data || p == "book.html".data || p == "cover.html".data

/-- addFilesToBook (main.go lines 116-137) on a source given as the list of
(path, content) pairs its traversal yields, with every read succeeding:
entries whose lower-cased path is reserved are skipped, every other entry is
registered via AddFile keyed by its original path with its content. -/
def addFilesToBook (entries : List (List Char × List Char)) :
    List (List Char × List Char) :=
  match entries with
  | [] => []
  | (path, data) :: rest =>
    if isReservedName path then addFilesToBook rest
    else (path, data) :: addFilesToBook rest

/-- A chapter in decomposed form: its title and depth, whether its content
starts with the Envelope, the body lines it carries, and whether the closing
footer was appended.  Rendering a GChapter (with the document's Envelope)
recovers the byte content the segmenter produced. -/
structure GChapter where
  title : List Char
  depth : Nat
  hasEnv : Bool
  lines : List (List Char)
  hasFooter : Bool

/-- The byte content a decomposed chapter renders to. -/
def renderContent (header : List Char) (g : GChapter) : List Char :=
  (if g.hasEnv then header else []) ++ joinNl g.lines ++
    (if g.hasFooter then footer else [])

/-- The chapter a decomposed chapter renders to. -/
def renderG (header : List Char) (g : GChapter) : Chapter :=
  ⟨g.title, renderContent header g, g.depth⟩

/-- The content buffer corresponding to a decomposed scanning state: the
Envelope if a qualifying marker has opened the current chapter, followed by
the accumulated lines. -/
def renderBuf (header : List Char) (hasEnv : Bool)
    (core : List (List Char)) : List Char :=
  (if hasEnv then header else []) ++ joinNl core

/-- Decomposed mirror of segLoop (with an always-succeeding AddChapter):
instead of a byte buffer it carries the flag and line list that render to the
buffer, and it emits decomposed chapters. -/
def gLoop (maxDepth : Nat) :
    List (List Char) → Bool → List (List Char) → List Char → Nat →
      List GChapter
  | [], hasEnv, core, title, depth =>
    if hasEnv = false ∧ core = [] then []
    else [⟨title, depth, hasEnv, core, false⟩]
  | l :: ls, hasEnv, core, title, depth =>
    if 0 < (checkNewChapter l).1 ∧ (checkNewChapter l).1 ≤ maxDepth then
      if hasEnv = false ∧ core = [] then
        gLoop maxDepth ls true [l] (checkNewChapter l).2 (checkNewChapter l).1
      else
        ⟨title, depth, hasEnv, core, true⟩ ::
          gLoop maxDepth ls true [l] (checkNewChapter l).2 (checkNewChapter l).1
    else gLoop maxDepth ls hasEnv (core ++ [l]) title depth

/-- A run of horizontal whitespace, as matched by `[ \t]*`. -/
def WsRun (ws : List Char) : Prop := ∀ c ∈ ws, isWsChar c = true

/-- The specification's characterisation of a heading line: after a run of
horizontal whitespace, exactly an opening heading tag of level d (tag letter
case-insensitive, attribute characters free of tag markers), inner text with
no tag marker, a closing heading tag of the same level d, and nothing but
horizontal whitespace afterwards; the marker's depth is the level's numeric
value and the title is the inner text, untrimmed. -/
def HeadingLine (l : List Char) (n : Nat) (title : List Char) : Prop :=
  ∃ ws1 hc1 d attrs itext hc2 ws2,
    l = ws1 ++ ['<', hc1, d] ++ attrs ++ ['>'] ++ itext
          ++ ['<', '/', hc2, d, '>'] ++ ws2 ∧
    WsRun ws1 ∧ WsRun ws2 ∧
    isHChar hc1 = true ∧ isHChar hc2 = true ∧ isLevelDigit d = true ∧
    (∀ c ∈ attrs, (c == '>') = false) ∧
    (∀ c ∈ itext, (c == '<') = false) ∧
    n = d.toNat - 48 ∧ title = itext

theorem joinNl_singleton (l : List Char) : joinNl [l] = l ++ ['\n'] := by
  simp [joinNl]

theorem joinNl_snoc (core : List (List Char)) (l : List Char) :
    joinNl (core ++ [l]) = joinNl core ++ (l ++ ['\n']) := by
  simp [joinNl]

theorem joinNl_eq_nil_iff (ls : List (List Char)) : joinNl ls = [] ↔ ls = [] := by
  cases ls with
  | nil => simp [joinNl]
  | cons l ls => simp [joinNl]

theorem renderBuf_eq_nil_iff (header : List Char) (hh : header ≠ [])
    (hasEnv : Bool) (core : List (List Char)) :
    renderBuf header hasEnv core = [] ↔ hasEnv = false ∧ core = [] := by
  cases hasEnv <;> simp [renderBuf, joinNl_eq_nil_iff, hh]

theorem renderBuf_snoc (header : List Char) (hasEnv : Bool)
    (core : List (List Char)) (l : List Char) :
    renderBuf header hasEnv core ++ l ++ ['\n']
      = renderBuf header hasEnv (core ++ [l]) := by
  simp [renderBuf, joinNl_snoc]

theorem renderBuf_restart (header l : List Char) :
    header ++ l ++ ['\n'] = renderBuf header true [l] := by
  simp [renderBuf, joinNl_singleton]

theorem segLoop_eq_gLoop (maxDepth : Nat) (header : List Char)
    (hh : header ≠ []) (ls : List (List Char)) :
    ∀ (hasEnv : Bool) (core : List (List Char)) (title : List Char) (depth : Nat),
      segLoop alwaysOk maxDepth header ls (renderBuf header hasEnv core) title depth
        = ((gLoop maxDepth ls hasEnv core title depth).map (renderG header), false) := by
  induction ls with
  | nil =>
    intro hasEnv core title depth
    by_cases h : hasEnv = false ∧ core = []
    · obtain ⟨h1, h2⟩ := h
      subst h1; subst h2
      simp [segLoop, gLoop, renderBuf, joinNl]
    · have hbuf : renderBuf header hasEnv core ≠ [] := fun hc =>
        h ((renderBuf_eq_nil_iff header hh hasEnv core).mp hc)
      have hlen : 0 < (renderBuf header hasEnv core).length :=
        List.length_pos.mpr hbuf
      rw [segLoop, gLoop, if_pos hlen, if_neg h]
      simp [alwaysOk, renderG, renderContent, renderBuf]
  | cons l ls ih =>
    intro hasEnv core title depth
    by_cases hb : 0 < (checkNewChapter l).1 ∧ (checkNewChapter l).1 ≤ maxDepth
    · by_cases h : hasEnv = false ∧ core = []
      · have hbuf : renderBuf header hasEnv core = [] :=
          (renderBuf_eq_nil_iff header hh hasEnv core).mpr h
        rw [segLoop, gLoop, if_pos hb, if_pos hb, if_pos h, hbuf]
        simp only [List.length_nil, Nat.lt_irrefl, if_neg (by omega : ¬ (0 < 0))]
        rw [renderBuf_restart]
        exact ih true [l] _ _
      · have hbuf : renderBuf header hasEnv core ≠ [] := fun hc =>
          h ((renderBuf_eq_nil_iff header hh hasEnv core).mp hc)
        have hlen : 0 < (renderBuf header hasEnv core).length :=
          List.length_pos.mpr hbuf
        rw [segLoop, gLoop, if_pos hb, if_pos hb, if_neg h, if_pos hlen]
        simp only [alwaysOk, if_pos]
        rw [renderBuf_restart]
        rw [ih true [l] _ _]
        simp [renderG, renderContent, renderBuf, List.append_assoc]
    · rw [segLoop, gLoop, if_neg hb, if_neg hb, renderBuf_snoc]
      exact ih hasEnv (core ++ [l]) title depth

theorem gLoop_lines (maxDepth : Nat) (ls : List (List Char)) :
    ∀ (hasEnv : Bool) (core : List (List Char)) (title : List Char) (depth : Nat),
      ((gLoop maxDepth ls hasEnv core title depth).map GChapter.lines).flatten
        = core ++ ls := by
  induction ls with
  | nil =>
    intro hasEnv core title depth
    by_cases h : hasEnv = false ∧ core = []
    · simp [gLoop, h, h.2]
    · simp [gLoop, h]
  | cons l ls ih =>
    intro hasEnv core title depth
    by_cases hb : 0 < (checkNewChapter l).1 ∧ (checkNewChapter l).1 ≤ maxDepth
    · by_cases h : hasEnv = false ∧ core = []
      · rw [gLoop, if_pos hb, if_pos h, ih]
        simp [h.2]
      · rw [gLoop, if_pos hb, if_neg h]
        simp only [List.map_cons, List.flatten_cons, ih]
        simp
    · rw [gLoop, if_neg hb, ih]
      simp

theorem findBody_header_ne_nil (doc : List (List Char)) :
    ∀ header rest, findBody doc = some (header, rest) → header ≠ [] := by
  induction doc with
  | nil => intro header rest h; cases h
  | cons l ls ih =>
    intro header rest h
    rw [findBody] at h
    by_cases hb : isBodyLine l
    · rw [if_pos hb] at h
      cases h
      simp
    · rw [if_neg hb] at h
      cases hfb : findBody ls with
      | none => rw [hfb] at h; cases h
      | some p =>
        rw [hfb] at h
        cases h
        simp

theorem findBody_eq_none (doc : List (List Char))
    (h : ∀ l ∈ doc, isBodyLine l = false) : findBody doc = none := by
  induction doc with
  | nil => rfl
  | cons l ls ih =>
    rw [findBody, if_neg (by simp [h l (by simp)]),
      ih (fun l' hl' => h l' (by simp [hl']))]

theorem segLoop_env_all (addOk : List Char → List Char → Nat → Bool)
    (maxDepth : Nat) (header : List Char) (ls : List (List Char)) :
    ∀ (buf title : List Char) (depth : Nat), (∃ s, buf = header ++ s) →
      ∀ c ∈ (segLoop addOk maxDepth header ls buf title depth).1,
        ∃ s, c.content = header ++ s := by
  induction ls with
  | nil =>
    intro buf title depth hbuf c hc
    by_cases h1 : 0 < buf.length
    · rw [segLoop, if_pos h1] at hc
      by_cases h2 : addOk title buf depth
      · rw [if_pos h2] at hc
        simp at hc
        subst hc
        exact hbuf
      · rw [if_neg h2] at hc
        simp at hc
    · rw [segLoop, if_neg h1] at hc
      simp at hc
  | cons l ls ih =>
    intro buf title depth hbuf c hc
    by_cases hb : 0 < (checkNewChapter l).1 ∧ (checkNewChapter l).1 ≤ maxDepth
    · rw [segLoop, if_pos hb] at hc
      by_cases h1 : 0 < buf.length
      · rw [if_pos h1] at hc
        by_cases h2 : addOk title (buf ++ footer) depth
        · rw [if_pos h2] at hc
          simp only [List.mem_cons] at hc
          rcases hc with hc | hc
          · subst hc
            obtain ⟨s, hs⟩ := hbuf
            exact ⟨s ++ footer, by simp [hs]⟩
          · exact ih _ _ _ ⟨l ++ ['\n'], by simp⟩ c hc
        · rw [if_neg h2] at hc
          simp at hc
      · rw [if_neg h1] at hc
        exact ih _ _ _ ⟨l ++ ['\n'], by simp⟩ c hc
    · rw [segLoop, if_neg hb] at hc
      refine ih _ _ _ ?_ c hc
      obtain ⟨s, hs⟩ := hbuf
      exact ⟨s ++ l ++ ['\n'], by simp [hs]⟩

theorem segLoop_env_tail (addOk : List Char → List Char → Nat → Bool)
    (maxDepth : Nat) (header : List Char) (ls : List (List Char)) :
    ∀ (buf title : List Char) (depth : Nat) (c : Chapter),
      c ∈ ((segLoop addOk maxDepth header ls buf title depth).1).tail →
        ∃ s, c.content = header ++ s := by
  induction ls with
  | nil =>
    intro buf title depth c hc
    by_cases h1 : 0 < buf.length
    · rw [segLoop, if_pos h1] at hc
      by_cases h2 : addOk title buf depth
      · rw [if_pos h2] at hc
        simp at hc
      · rw [if_neg h2] at hc
        simp at hc
    · rw [segLoop, if_neg h1] at hc
      simp at hc
  | cons l ls ih =>
    intro buf title depth c hc
    by_cases hb : 0 < (checkNewChapter l).1 ∧ (checkNewChapter l).1 ≤ maxDepth
    · rw [segLoop, if_pos hb] at hc
      by_cases h1 : 0 < buf.length
      · rw [if_pos h1] at hc
        by_cases h2 : addOk title (buf ++ footer) depth
        · rw [if_pos h2] at hc
          simp only [List.tail_cons] at hc
          exact segLoop_env_all addOk maxDepth header ls _ _ _
            ⟨l ++ ['\n'], by simp⟩ c hc
        · rw [if_neg h2] at hc
          simp at hc
      · rw [if_neg h1] at hc
        exact segLoop_env_all addOk maxDepth header ls _ _ _
          ⟨l ++ ['\n'], by simp⟩ c (List.mem_of_mem_tail hc)
    · rw [segLoop, if_neg hb] at hc
      exact ih _ _ _ c hc

theorem segLoop_content_ne_nil (addOk : List Char → List Char → Nat → Bool)
    (maxDepth : Nat) (header : List Char) (ls : List (List Char)) :
    ∀ (buf title : List Char) (depth : Nat) (c : Chapter),
      c ∈ (segLoop addOk maxDepth header ls buf title depth).1 →
        c.content ≠ [] := by
  induction ls with
  | nil =>
    intro buf title depth c hc
    by_cases h1 : 0 < buf.length
    · rw [segLoop, if_pos h1] at hc
      by_cases h2 : addOk title buf depth
      · rw [if_pos h2] at hc
        simp at hc
        subst hc
        intro hnil
        simp only at hnil
        rw [hnil] at h1
        simp at h1
      · rw [if_neg h2] at hc
        simp at hc
    · rw [segLoop, if_neg h1] at hc
      simp at hc
  | cons l ls ih =>
    intro buf title depth c hc
    by_cases hb : 0 < (checkNewChapter l).1 ∧ (checkNewChapter l).1 ≤ maxDepth
    · rw [segLoop, if_pos hb] at hc
      by_cases h1 : 0 < buf.length
      · rw [if_pos h1] at hc
        by_cases h2 : addOk title (buf ++ footer) depth
        · rw [if_pos h2] at hc
          simp only [List.mem_cons] at hc
          rcases hc with hc | hc
          · subst hc
            simp [footer]
          · exact ih _ _ _ c hc
        · rw [if_neg h2] at hc
          simp at hc
      · rw [if_neg h1] at hc
        exact ih _ _ _ c hc
    · rw [segLoop, if_neg hb] at hc
      exact ih _ _ _ c hc

theorem dropWhile_append_all {α : Type} (p : α → Bool) (xs ys : List α)
    (h : ∀ x ∈ xs, p x = true) :
    (xs ++ ys).dropWhile p = ys.dropWhile p := by
  induction xs with
  | nil => simp
  | cons a as ih =>
    rw [List.cons_append, List.dropWhile_cons, if_pos (h a (by simp))]
    exact ih (fun x hx => h x (by simp [hx]))

theorem dropWhile_cons_neg {α : Type} (p : α → Bool) (y : α) (ys : List α)
    (h : p y = false) : (y :: ys).dropWhile p = y :: ys := by
  rw [List.dropWhile_cons, if_neg (by simp [h])]

theorem takeWhile_append_all {α : Type} (p : α → Bool) (xs ys : List α)
    (h : ∀ x ∈ xs, p x = true) :
    (xs ++ ys).takeWhile p = xs ++ ys.takeWhile p := by
  induction xs with
  | nil => simp
  | cons a as ih =>
    rw [List.cons_append, List.takeWhile_cons, if_pos (h a (by simp)),
      ih (fun x hx => h x (by simp [hx]))]
    rfl

theorem takeWhile_cons_neg {α : Type} (p : α → Bool) (y : α) (ys : List α)
    (h : p y = false) : (y :: ys).takeWhile p = [] := by
  rw [List.takeWhile_cons, if_neg (by simp [h])]

theorem checkNewChapter_of_headingLine (l : List Char) (n : Nat)
    (t : List Char) (h : HeadingLine l n t) : checkNewChapter l = (n, t) := by
  obtain ⟨ws1, hc1, d, attrs, itext, hc2, ws2, hl, hws1, hws2, hh1, hh2, hd,
    hattrs, hitext, hn, ht⟩ := h
  subst hl hn
  rw [ht]
  have e0 : ws1 ++ ['<', hc1, d] ++ attrs ++ ['>'] ++ itext
        ++ ['<', '/', hc2, d, '>'] ++ ws2
      = ws1 ++ ('<' :: hc1 :: d ::
          (attrs ++ '>' :: (itext ++ '<' :: '/' :: hc2 :: d :: '>' :: ws2))) := by
    simp [List.append_assoc]
  rw [checkNewChapter, e0]
  rw [dropWhile_append_all isWsChar ws1 _ hws1,
    dropWhile_cons_neg isWsChar '<' _ (by decide)]
  rw [openTag, if_pos (by simp [hh1, hd])]
  have e2 : (attrs ++ '>' :: (itext ++ '<' :: '/' :: hc2 :: d :: '>' :: ws2)).dropWhile notGt
      = '>' :: (itext ++ '<' :: '/' :: hc2 :: d :: '>' :: ws2) := by
    rw [dropWhile_append_all notGt attrs _
        (fun c hc => by simp [notGt, hattrs c hc]),
      dropWhile_cons_neg notGt '>' _ (by decide)]
  rw [e2, afterGt, if_pos (by decide)]
  have e3 : (itext ++ '<' :: '/' :: hc2 :: d :: '>' :: ws2).dropWhile notLt
      = '<' :: '/' :: hc2 :: d :: '>' :: ws2 := by
    rw [dropWhile_append_all notLt itext _
        (fun c hc => by simp [notLt, hitext c hc]),
      dropWhile_cons_neg notLt '<' _ (by decide)]
  have e4 : (itext ++ '<' :: '/' :: hc2 :: d :: '>' :: ws2).takeWhile notLt
      = itext := by
    rw [takeWhile_append_all notLt itext _
        (fun c hc => by simp [notLt, hitext c hc]),
      takeWhile_cons_neg notLt '<' _ (by decide), List.append_nil]
  have e5 : closeTagOk d ('<' :: '/' :: hc2 :: d :: '>' :: ws2) = true := by
    simp [closeTagOk, hh2, hd, List.all_eq_true]
    exact hws2
  rw [e3, e5, if_pos rfl, e4]

theorem headingLine_of_checkNewChapter (l : List Char) (n : Nat)
    (t : List Char) (h : checkNewChapter l = (n, t)) (hn : 0 < n) :
    HeadingLine l n t := by
  rw [checkNewChapter] at h
  rcases hdw : l.dropWhile isWsChar with _ | ⟨c0, _ | ⟨c1, _ | ⟨d1, rest1⟩⟩⟩
  · rw [hdw] at h
    simp [openTag] at h
    omega
  · rw [hdw] at h
    simp [openTag] at h
    omega
  · rw [hdw] at h
    simp [openTag] at h
    omega
  rw [hdw] at h
  simp only [openTag] at h
  by_cases hcnd : (c0 == '<' && isHChar c1 && isLevelDigit d1) = true
  swap
  · rw [if_neg hcnd] at h
    obtain ⟨h1, h2⟩ := Prod.mk.injEq .. ▸ h
    omega
  rw [if_pos hcnd] at h
  simp only [Bool.and_eq_true, beq_iff_eq] at hcnd
  obtain ⟨⟨hc0, hh1⟩, hd1⟩ := hcnd
  rcases hdg : rest1.dropWhile notGt with _ | ⟨g, rest2⟩
  · rw [hdg] at h
    simp [afterGt] at h
    omega
  rw [hdg] at h
  simp only [afterGt] at h
  by_cases hg : (g == '>') = true
  swap
  · rw [if_neg hg] at h
    obtain ⟨h1, h2⟩ := Prod.mk.injEq .. ▸ h
    omega
  rw [if_pos hg] at h
  have hgq : g = '>' := by simpa using hg
  by_cases hcl : closeTagOk d1 (rest2.dropWhile notLt) = true
  swap
  · rw [if_neg hcl] at h
    obtain ⟨h1, h2⟩ := Prod.mk.injEq .. ▸ h
    omega
  rw [if_pos hcl] at h
  injection h with hn2 ht2
  rcases hdl : rest2.dropWhile notLt with
    _ | ⟨a, _ | ⟨b, _ | ⟨c2, _ | ⟨d2, _ | ⟨e, rest3⟩⟩⟩⟩⟩ <;> rw [hdl] at hcl
  · simp [closeTagOk] at hcl
  · simp [closeTagOk] at hcl
  · simp [closeTagOk] at hcl
  · simp [closeTagOk] at hcl
  · simp [closeTagOk] at hcl
  simp only [closeTagOk, Bool.and_eq_true, beq_iff_eq] at hcl
  obtain ⟨⟨⟨⟨⟨⟨ha, hb⟩, hh2⟩, hd2⟩, he⟩, hall⟩, hdd⟩ := hcl
  have hsplit : l = l.takeWhile isWsChar ++ ('<' :: c1 :: d1 :: rest1) := by
    conv_lhs => rw [← List.takeWhile_append_dropWhile (p := isWsChar) (l := l)]
    rw [hdw, hc0]
  have hrest1 : rest1 = rest1.takeWhile notGt ++ ('>' :: rest2) := by
    conv_lhs => rw [← List.takeWhile_append_dropWhile (p := notGt) (l := rest1)]
    rw [hdg, hgq]
  have hrest2 : rest2 = rest2.takeWhile notLt
      ++ ('<' :: '/' :: c2 :: d1 :: '>' :: rest3) := by
    conv_lhs => rw [← List.takeWhile_append_dropWhile (p := notLt) (l := rest2)]
    rw [hdl, ha, hb, he, ← hdd]
  refine ⟨l.takeWhile isWsChar, c1, d1, rest1.takeWhile notGt,
    rest2.takeWhile notLt, c2, rest3, ?_, ?_, ?_, hh1, hh2, hd1, ?_, ?_,
    hn2.symm, ?_⟩
  · have hshape : l.takeWhile isWsChar ++ ['<', c1, d1]
        ++ rest1.takeWhile notGt ++ ['>'] ++ rest2.takeWhile notLt
        ++ ['<', '/', c2, d1, '>'] ++ rest3
      = l.takeWhile isWsChar ++ ('<' :: c1 :: d1 ::
          (rest1.takeWhile notGt ++ '>' :: (rest2.takeWhile notLt
            ++ '<' :: '/' :: c2 :: d1 :: '>' :: rest3))) := by
      simp [List.append_assoc]
    rw [hshape, ← hrest2, ← hrest1, ← hsplit]
  · exact fun c hc => List.mem_takeWhile_imp hc
  · exact List.all_eq_true.mp hall
  · intro c hc
    have := List.mem_takeWhile_imp hc
    simpa [notGt] using this
  · intro c hc
    have := List.mem_takeWhile_imp hc
    simpa [notLt] using this
  · exact ht2.symm

theorem addChaptersToBook_eq_of_findBody
    (addOk : List Char → List Char → Nat → Bool) (maxDepth : Nat)
    (doc : List (List Char)) (header : List Char) (rest : List (List Char))
    (hfb : findBody doc = some (header, rest)) :
    addChaptersToBook addOk maxDepth doc
      = segLoop addOk maxDepth header rest [] [] 1 := by
  rw [addChaptersToBook, hfb]

theorem addChaptersToBook_of_findBody_none
    (addOk : List Char → List Char → Nat → Bool) (maxDepth : Nat)
    (doc : List (List Char)) (hfb : findBody doc = none) :
    addChaptersToBook addOk maxDepth doc = ([], true) := by
  rw [addChaptersToBook, hfb]

/-- C3: checkNewChapter maps a line to a marker with depth n and title t iff,
after stripping leading and trailing spaces and tabs, the line is exactly an
opening heading tag of level n in 1-6 (tag letter case-insensitive, attribute
characters free of tag markers), then inner text containing no tag markers,
then a closing heading tag of the same level, and nothing else; on match the
title is the inner text with no further trimming, and any non-match
(mismatched levels or interleaved markup included) yields depth 0. -/
theorem checkNewChapter_characterisation (l : List Char) (n : Nat)
    (t : List Char) :
    (checkNewChapter l = (n, t) ∧ 0 < n) ↔ HeadingLine l n t := by
  constructor
  · rintro ⟨h, hn⟩
    exact headingLine_of_checkNewChapter l n t h hn
  · intro h
    refine ⟨checkNewChapter_of_headingLine l n t h, ?_⟩
    obtain ⟨ws1, hc1, d, attrs, itext, hc2, ws2, hl, hws1, hws2, hh1, hh2, hd,
      hattrs, hitext, hn, ht⟩ := h
    subst hn
    simp [isLevelDigit] at hd
    omega

/-- Witness for C3 at a concrete heading line with attributes and padding. -/
theorem checkNewChapter_characterisation_witness :
    checkNewChapter " <h2 id=a>Title</h2> ".data = (2, "Title".data) ∧
      0 < 2 :=
  (checkNewChapter_characterisation " <h2 id=a>Title</h2> ".data 2
      "Title".data).mpr
    ⟨" ".data, 'h', '2', " id=a".data, "Title".data, 'h', " ".data,
      by decide, by unfold WsRun; decide, by unfold WsRun; decide,
      by decide, by decide, by decide,
      by decide, by decide, by decide, by decide⟩

/-- C1: on the document with body lines h1-A, p1, h2-A.1, p2, h1-B, p3 and
maxDepth 2, the segmenter emits exactly three chapters in order: A at depth 1
containing the line p1, A.1 at depth 2 containing p2, B at depth 1
containing p3. -/
theorem scenario_maxDepth_two :
    ∃ a b c : Chapter,
      (addChaptersToBook alwaysOk 2 ["<body>".data, "<h1>A</h1>".data,
          "p1".data, "<h2>A.1</h2>".data, "p2".data, "<h1>B</h1>".data,
          "p3".data]).1 = [a, b, c] ∧
      a.title = "A".data ∧ a.depth = 1 ∧
      (∃ s u, a.content = s ++ "p1\n".data ++ u) ∧
      b.title = "A.1".data ∧ b.depth = 2 ∧
      (∃ s u, b.content = s ++ "p2\n".data ++ u) ∧
      c.title = "B".data ∧ c.depth = 1 ∧
      (∃ s u, c.content = s ++ "p3\n".data ++ u) :=
  ⟨⟨"A".data, "<body>\n<h1>A</h1>\np1\n\t</body>\n</html>".data, 1⟩,
    ⟨"A.1".data, "<body>\n<h2>A.1</h2>\np2\n\t</body>\n</html>".data, 2⟩,
    ⟨"B".data, "<body>\n<h1>B</h1>\np3\n".data, 1⟩,
    by decide, by decide, by decide,
    ⟨"<body>\n<h1>A</h1>\n".data, "\t</body>\n</html>".data, by decide⟩,
    by decide, by decide,
    ⟨"<body>\n<h2>A.1</h2>\n".data, "\t</body>\n</html>".data, by decide⟩,
    by decide, by decide,
    ⟨"<body>\n<h1>B</h1>\n".data, "".data, by decide⟩⟩

/-- C2 is false as stated: in the document body p0, h1-A, p1 the first,
untitled chapter is emitted with content that does not begin with the
captured Envelope (the buffer starts empty, not with the Envelope, so content
preceding the first qualifying marker is emitted bare). -/
theorem first_chapter_lacks_envelope :
    findBody ["<body>".data, "p0".data, "<h1>A</h1>".data, "p1".data]
      = some ("<body>\n".data,
          ["p0".data, "<h1>A</h1>".data, "p1".data]) ∧
    ((addChaptersToBook alwaysOk 1
        ["<body>".data, "p0".data, "<h1>A</h1>".data, "p1".data]).1.map
      Chapter.content).head? = some "p0\n\t</body>\n</html>".data ∧
    ¬ ∃ s, "p0\n\t</body>\n</html>".data = "<body>\n".data ++ s := by
  refine ⟨by decide, by decide, ?_⟩
  rintro ⟨s, hs⟩
  have h1 : List.take 7 "p0\n\t</body>\n</html>".data
      = List.take 7 ("<body>\n".data ++ s) := by rw [hs]
  rw [show (7 : Nat) = ("<body>\n".data).length from by decide,
    List.take_left] at h1
  exact absurd h1 (by decide)

/-- C2 amended: every chapter after the first begins with the captured
Envelope, and when the first body line is itself a qualifying heading marker
every chapter (the first included) begins with the Envelope; only a leading
chapter holding content that precedes the first qualifying marker lacks it. -/
theorem chapters_begin_with_envelope
    (addOk : List Char → List Char → Nat → Bool) (maxDepth : Nat)
    (doc : List (List Char)) (header : List Char) (rest : List (List Char))
    (hfb : findBody doc = some (header, rest)) :
    (∀ c ∈ ((addChaptersToBook addOk maxDepth doc).1).tail,
        ∃ s, c.content = header ++ s) ∧
    (∀ l ls, rest = l :: ls →
      0 < (checkNewChapter l).1 → (checkNewChapter l).1 ≤ maxDepth →
      ∀ c ∈ (addChaptersToBook addOk maxDepth doc).1,
        ∃ s, c.content = header ++ s) := by
  rw [addChaptersToBook_eq_of_findBody addOk maxDepth doc header rest hfb]
  constructor
  · exact fun c hc => segLoop_env_tail addOk maxDepth header rest [] [] 1 c hc
  · intro l ls hrest hpos hle c hc
    subst hrest
    rw [segLoop, if_pos ⟨hpos, hle⟩, if_neg (by simp)] at hc
    exact segLoop_env_all addOk maxDepth header ls _ _ _
      ⟨l ++ ['\n'], by simp⟩ c hc

/-- Witness for the amended C2: the second chapter of the counterexample
document does begin with the Envelope. -/
theorem chapters_begin_with_envelope_witness :
    ∃ s, (⟨"A".data, "<body>\n<h1>A</h1>\np1\n".data, 1⟩ : Chapter).content
      = "<body>\n".data ++ s :=
  (chapters_begin_with_envelope alwaysOk 1
      ["<body>".data, "p0".data, "<h1>A</h1>".data, "p1".data]
      "<body>\n".data ["p0".data, "<h1>A</h1>".data, "p1".data]
      (by decide)).1
    ⟨"A".data, "<body>\n<h1>A</h1>\np1\n".data, 1⟩ (by decide)

/-- C4: for every accepted document the emitted chapters decompose as an
optional Envelope copy, a block of consecutive body lines (joined with their
newlines), and an optional injected closing footer, and the blocks
concatenated in emission order are exactly the body lines, in order, each
appearing exactly once. -/
theorem chapters_decompose (maxDepth : Nat) (doc : List (List Char))
    (header : List Char) (rest : List (List Char))
    (hfb : findBody doc = some (header, rest)) :
    ∃ gs : List GChapter,
      (addChaptersToBook alwaysOk maxDepth doc).1 = gs.map (renderG header) ∧
      (gs.map GChapter.lines).flatten = rest := by
  have hh : header ≠ [] := findBody_header_ne_nil doc header rest hfb
  rw [addChaptersToBook_eq_of_findBody alwaysOk maxDepth doc header rest hfb]
  refine ⟨gLoop maxDepth rest false [] [] 1, ?_, ?_⟩
  · have hg := segLoop_eq_gLoop maxDepth header hh rest false [] [] 1
    have hrb : renderBuf header false [] = [] := by simp [renderBuf, joinNl]
    rw [hrb] at hg
    rw [hg]
  · rw [gLoop_lines]
    simp

/-- Witness for C4 on the three-chapter scenario document. -/
theorem chapters_decompose_witness :
    ∃ gs : List GChapter,
      (addChaptersToBook alwaysOk 2 ["<body>".data, "<h1>A</h1>".data,
          "p1".data, "<h2>A.1</h2>".data, "p2".data, "<h1>B</h1>".data,
          "p3".data]).1 = gs.map (renderG "<body>\n".data) ∧
      (gs.map GChapter.lines).flatten
        = ["<h1>A</h1>".data, "p1".data, "<h2>A.1</h2>".data, "p2".data,
            "<h1>B</h1>".data, "p3".data] :=
  chapters_decompose 2 ["<body>".data, "<h1>A</h1>".data, "p1".data,
      "<h2>A.1</h2>".data, "p2".data, "<h1>B</h1>".data, "p3".data]
    "<body>\n".data
    ["<h1>A</h1>".data, "p1".data, "<h2>A.1</h2>".data, "p2".data,
      "<h1>B</h1>".data, "p3".data] (by decide)

/-- C8: a document with no line matching the body-open pattern makes
addChaptersToBook fail with the read error before any chapter is emitted. -/
theorem no_body_line_fails (addOk : List Char → List Char → Nat → Bool)
    (maxDepth : Nat) (doc : List (List Char))
    (h : ∀ l ∈ doc, isBodyLine l = false) :
    addChaptersToBook addOk maxDepth doc = ([], true) :=
  addChaptersToBook_of_findBody_none addOk maxDepth doc
    (findBody_eq_none doc h)

/-- Witness for C8 on a concrete document without a body line. -/
theorem no_body_line_fails_witness :
    addChaptersToBook alwaysOk 1 ["<html>".data, "<h1>A</h1>".data]
      = ([], true) :=
  no_body_line_fails alwaysOk 1 ["<html>".data, "<h1>A</h1>".data]
    (by decide)

/-- C10: no emitted chapter has empty content; both the mid-stream and the
end-of-input emissions are guarded by a non-empty-buffer check (and the
mid-stream content additionally carries the footer), so every chapter
registered with the container has at least one byte of content. -/
theorem chapter_content_nonempty (addOk : List Char → List Char → Nat → Bool)
    (maxDepth : Nat) (doc : List (List Char)) (c : Chapter)
    (hc : c ∈ (addChaptersToBook addOk maxDepth doc).1) : c.content ≠ [] := by
  cases hfb : findBody doc with
  | none =>
    rw [addChaptersToBook_of_findBody_none addOk maxDepth doc hfb] at hc
    simp at hc
  | some p =>
    obtain ⟨header, rest⟩ := p
    rw [addChaptersToBook_eq_of_findBody addOk maxDepth doc header rest hfb]
      at hc
    exact segLoop_content_ne_nil addOk maxDepth header rest [] [] 1 c hc

/-- Witness for C10: a document whose body opens directly with a heading
still emits a chapter with non-empty content (and no empty chapter before
it). -/
theorem chapter_content_nonempty_witness :
    (⟨"A".data, "<body>\n<h1>A</h1>\n".data, 1⟩ : Chapter).content ≠ [] :=
  chapter_content_nonempty alwaysOk 1 ["<body>".data, "<h1>A</h1>".data]
    ⟨"A".data, "<body>\n<h1>A</h1>\n".data, 1⟩ (by decide)

/-- C6 is a code bug: when only the final end-of-input AddChapter fails
(here the container accepts depth at most 1 while the final chapter has
depth 2), addChaptersToBook still returns success with no chapter
registered, because line 192 assigns the error to e and line 195 returns
nil; the same failing AddChapter at a mid-stream boundary does propagate. -/
theorem final_addChapter_error_swallowed :
    addChaptersToBook (fun _ _ d => decide (d ≤ 1)) 2
      ["<body>".data, "<h2>A</h2>".data, "p".data] = ([], false) ∧
    addChaptersToBook (fun _ _ d => decide (d ≤ 1)) 2
      ["<body>".data, "<h2>A</h2>".data, "p".data, "<h2>B</h2>".data,
        "q".data] = ([], true) :=
  ⟨by decide, by decide⟩

/-- C7 is a code bug: when cover.html opens but reading it fails,
setCoverPage registers nothing yet returns nil (the ReadAll error is
shadowed), so the pipeline continues; an open failure is returned, and on a
successful read the cover is registered without error. -/
theorem cover_read_error_not_fatal :
    setCoverPage (some none) = ⟨none, false⟩ ∧
    setCoverPage none = ⟨none, true⟩ ∧
    setCoverPage (some (some "img".data)) = ⟨some "img".data, false⟩ :=
  ⟨rfl, rfl, rfl⟩

/-- C5 is false as stated: the archive contains an entry equal to the
requested path up to letter case (their lower-casings agree), yet the
archive-backed open fails, because only the stored entry name is
lower-cased before comparison, not the requested path. -/
theorem zip_lookup_not_case_insensitive_in_path :
    "cover.html".data.map Char.toLower
      = "Cover.html".data.map Char.toLower ∧
    zipOpenFile ["cover.html".data] "Cover.html".data = none :=
  ⟨by decide, by decide⟩

/-- C5 amended: archive-backed open succeeds iff some entry's lower-cased
name equals the requested path verbatim (so it is case-insensitive in the
stored entry name but matches the requested path as given), while
directory-backed open succeeds iff the exact path is present
(case-sensitive). -/
theorem openFile_lookup_semantics :
    (∀ (entries : List (List Char)) (path : List Char),
      (zipOpenFile entries path).isSome = true ↔
        ∃ m, m ∈ entries ∧ m.map Char.toLower = path) ∧
    (∀ (files : List (List Char × List Char)) (path : List Char),
      (folderOpenFile files path).isSome = true ↔
        ∃ d, (path, d) ∈ files) := by
  constructor
  · intro entries path
    induction entries with
    | nil => simp [zipOpenFile]
    | cons f rest ih =>
      by_cases hf : (f.map Char.toLower == path) = true
      · rw [zipOpenFile, if_pos hf]
        exact ⟨fun _ => ⟨f, by simp, by simpa using hf⟩, fun _ => rfl⟩
      · rw [zipOpenFile, if_neg hf, ih]
        constructor
        · rintro ⟨m, hm, hlm⟩
          exact ⟨m, by simp [hm], hlm⟩
        · rintro ⟨m, hm, hlm⟩
          rcases List.mem_cons.mp hm with rfl | hm2
          · exact absurd (by simp [hlm] : (m.map Char.toLower == path) = true) hf
          · exact ⟨m, hm2, hlm⟩
  · intro files path
    induction files with
    | nil => simp [folderOpenFile]
    | cons fd rest ih =>
      obtain ⟨nm, data⟩ := fd
      by_cases hf : (nm == path) = true
      · rw [folderOpenFile, if_pos hf]
        have hq : nm = path := by simpa using hf
        subst hq
        exact ⟨fun _ => ⟨data, by simp⟩, fun _ => rfl⟩
      · rw [folderOpenFile, if_neg hf, ih]
        constructor
        · rintro ⟨d, hd⟩
          exact ⟨d, by simp [hd]⟩
        · rintro ⟨d, hd⟩
          rcases List.mem_cons.mp hd with heq | hd2
          · have h1 : path = nm := congrArg Prod.fst heq
            exact absurd (by simp [h1] : (nm == path) = true) hf
          · exact ⟨d, hd2⟩

/-- Witness for the amended C5: a lowercase request matches a mixed-case
archive entry, and a directory lookup matches the exact path. -/
theorem openFile_lookup_semantics_witness :
    (zipOpenFile ["Cover.HTML".data] "cover.html".data).isSome = true ∧
    (folderOpenFile [("cover.html".data, "x".data)]
        "cover.html".data).isSome = true :=
  ⟨(openFile_lookup_semantics.1 ["Cover.HTML".data] "cover.html".data).mpr
      ⟨"Cover.HTML".data, by simp, by decide⟩,
    (openFile_lookup_semantics.2 [("cover.html".data, "x".data)]
        "cover.html".data).mpr ⟨"x".data, by simp⟩⟩

/-- C9: an entry is registered as a supporting asset iff its lower-cased
path differs from every reserved name (book.ini, book.html, cover.html), so
reserved entries are never registered whatever their letter case, and every
other entry is registered keyed by its original path with its content. -/
theorem asset_registration_iff (entries : List (List Char × List Char))
    (e : List Char × List Char) :
    e ∈ addFilesToBook entries ↔
      e ∈ entries ∧ isReservedName e.1 = false := by
  induction entries with
  | nil => simp [addFilesToBook]
  | cons fd rest ih =>
    obtain ⟨path, data⟩ := fd
    by_cases hr : isReservedName path = true
    · rw [addFilesToBook, if_pos hr, ih]
      constructor
      · rintro ⟨hm, hnr⟩
        exact ⟨by simp [hm], hnr⟩
      · rintro ⟨hm, hnr⟩
        rcases List.mem_cons.mp hm with heq | hm2
        · rw [heq] at hnr
          simp only at hnr
          rw [hnr] at hr
          cases hr
        · exact ⟨hm2, hnr⟩
    · have hrf : isReservedName path = false := by simpa using hr
      rw [addFilesToBook, if_neg hr, List.mem_cons, ih]
      constructor
      · rintro (rfl | ⟨hm, hnr⟩)
        · exact ⟨by simp, hrf⟩
        · exact ⟨by simp [hm], hnr⟩
      · rintro ⟨hm, hnr⟩
        rcases List.mem_cons.mp hm with heq | hm2
        · exact Or.inl heq
        · exact Or.inr ⟨hm2, hnr⟩

/-- Witness for C9: an image entry is registered while an upper-cased
reserved entry is skipped. -/
theorem asset_registration_iff_witness :
    ("img.png".data, "x".data) ∈ addFilesToBook
        [("BOOK.INI".data, "i".data), ("img.png".data, "x".data)] ∧
    ¬ ("BOOK.INI".data, "i".data) ∈ addFilesToBook
        [("BOOK.INI".data, "i".data), ("img.png".data, "x".data)] := by
  constructor
  · exact (asset_registration_iff
        [("BOOK.INI".data, "i".data), ("img.png".data, "x".data)]
        ("img.png".data, "x".data)).mpr ⟨by simp, by decide⟩
  · intro hmem
    exact absurd ((asset_registration_iff
        [("BOOK.INI".data, "i".data), ("img.png".data, "x".data)]
        ("BOOK.INI".data, "i".data)).mp hmem).2 (by decide)
